import Mathlib

/-!
Shallow embedding of the `cgol` repository (`src/main.cpp`), a Conway's
Game of Life simulation on a 64×64 toroidal bit board.

The C++ `CellBoard` stores two byte arrays `board` (the committed buffer)
and `backbuf` (the back buffer), each of `(64*64/8)+1 = 513` bytes.  We
model each byte array as a natural number encoding the bytes in
little-endian order: byte `i` of the array is `b / 256^i % 256`.  Bit `k`
of byte `i` of the array is then exactly bit `8*i + k` of the natural
number, so the packing used by `CellAt`/`ChangeCellTo` (offset
`off = x*64 + y`, byte `off/8`, bit `off%8`) is preserved verbatim.

C's `%` on `int` truncates toward zero, so `adjust` is translated with
`Int.tmod`; C's `/` on `int` (used by `SeedCell`) is `Int.tdiv`.

The SDL rendering and input layer is outside the embedded core: the
`renderer`, `width`, `height` and `haveErr` fields of `Life` and the
`t`/`dt` parameters of `Update` (unused by the simulation logic) are
dropped.
-/

namespace Cgol

/-- Byte `i` of the little-endian byte string encoded by `b`. -/
def getByte (b i : Nat) : Nat := b / 256 ^ i % 256

/-- The byte string `b` with byte `i` replaced by `v` (for `v < 256`);
this models the array store `arr[i] = v`. -/
def setByte (b i v : Nat) : Nat :=
  b % 256 ^ i + v * 256 ^ i + b / 256 ^ (i + 1) * 256 ^ (i + 1)

/-- `CellBoard::EDGE_SZ`. -/
def EDGE_SZ : Int := 64

/-- `CellBoard::adjust`: C truncating `%` followed by a conditional
correction, yielding a floor-mod for a positive modulus. -/
def adjust (val max : Int) : Int :=
  let v := val.tmod max
  if v < 0 then v + max else v

/-- Body of `CellBoard::CellAt`, reading from a bare buffer.
`off` is nonnegative (both adjusted coordinates lie in `[0, 64)`),
so taking `Int.toNat` agrees with the C `int` arithmetic. -/
def readCell (buf : Nat) (x y : Int) : Int :=
  let xr := adjust x EDGE_SZ
  let yr := adjust y EDGE_SZ
  let off := (xr * EDGE_SZ + yr).toNat
  let idx := off / 8
  let bit := off % 8
  let val := getByte buf idx &&& (1 <<< bit)
  if val > 0 then 1 else 0

/-- Body of `CellBoard::ChangeCellTo`, acting on a bare buffer.
`backbuf[idx] &= ~(1UL << bit)` stores the 8-bit truncation of the
complemented mask, i.e. ANDs the byte with `255 - 2^bit`;
`backbuf[idx] |= 1UL << bit` ORs the byte with `2^bit`. -/
def writeCell (buf : Nat) (x y : Int) (value : Int) : Nat :=
  let xr := adjust x EDGE_SZ
  let yr := adjust y EDGE_SZ
  let off := (xr * EDGE_SZ + yr).toNat
  let idx := off / 8
  let bit := off % 8
  if value = 0 then
    setByte buf idx (getByte buf idx &&& (255 - (1 <<< bit)))
  else
    setByte buf idx (getByte buf idx ||| (1 <<< bit))

/-- `CellBoard`: committed buffer `board` and back buffer `backbuf`. -/
structure CellBoard where
  board : Nat
  backbuf : Nat
  deriving DecidableEq

/-- `CellBoard::CellAt`: reads the committed buffer. -/
def CellBoard.CellAt (cb : CellBoard) (x y : Int) : Int :=
  readCell cb.board x y

/-- `CellBoard::ChangeCellTo`: writes to the back buffer. -/
def CellBoard.ChangeCellTo (cb : CellBoard) (x y : Int) (value : Int) : CellBoard :=
  { cb with backbuf := writeCell cb.backbuf x y value }

/-- `CellBoard::CopyBuffer`: copies the committed buffer over the whole
back buffer (the C loop copies every byte of the array). -/
def CellBoard.CopyBuffer (cb : CellBoard) : CellBoard :=
  { cb with backbuf := cb.board }

/-- `CellBoard::SwitchBuffer`: the C loop copies every byte of the back
buffer into the committed buffer and zeroes the back buffer. -/
def CellBoard.SwitchBuffer (cb : CellBoard) : CellBoard :=
  { board := cb.backbuf, backbuf := 0 }

/-- `Life::CELL_SZ`. -/
def CELL_SZ : Int := 12

/-- `Life`: seed-mode flag and the cell board (rendering state dropped). -/
structure Life where
  seed_mode : Bool
  board : CellBoard
  deriving DecidableEq

/-- The `Life` constructor: `seed_mode` defaults to `false`, both buffers
start zeroed, and the three seed cells at `(32, 31), (32, 32), (32, 33)`
are written to the back buffer via `ChangeCellTo` (no commit). -/
def Life.init : Life :=
  let b0 : CellBoard := { board := 0, backbuf := 0 }
  let x : Int := EDGE_SZ / 2
  let y : Int := EDGE_SZ / 2
  { seed_mode := false
    board := ((b0.ChangeCellTo x (y - 1) 1).ChangeCellTo x y 1).ChangeCellTo x (y + 1) 1 }

/-- The eight neighbor reads of `Life::Update`, in source order. -/
def neighborCount (buf : Nat) (x y : Int) : Nat :=
  (if readCell buf (x - 1) (y - 1) ≠ 0 then 1 else 0) +
  (if readCell buf x       (y - 1) ≠ 0 then 1 else 0) +
  (if readCell buf (x + 1) (y - 1) ≠ 0 then 1 else 0) +
  (if readCell buf (x - 1) y       ≠ 0 then 1 else 0) +
  (if readCell buf (x + 1) y       ≠ 0 then 1 else 0) +
  (if readCell buf (x - 1) (y + 1) ≠ 0 then 1 else 0) +
  (if readCell buf x       (y + 1) ≠ 0 then 1 else 0) +
  (if readCell buf (x + 1) (y + 1) ≠ 0 then 1 else 0)

/-- The loop body of `Life::Update` for one cell `(x, y)`. -/
def updateCell (cb : CellBoard) (x y : Int) : CellBoard :=
  let cnt := neighborCount cb.board x y
  let v := cb.CellAt x y
  if v = 1 ∧ (cnt = 2 ∨ cnt = 3) then cb.ChangeCellTo x y 1
  else if v = 0 ∧ cnt = 3 then cb.ChangeCellTo x y 1
  else cb

/-- The double loop of `Life::Update`: `x` from 0 to 63 outer,
`y` from 0 to 63 inner. -/
def updateLoop (cb : CellBoard) : CellBoard :=
  (List.range 64).foldl
    (fun a (x : Nat) =>
      (List.range 64).foldl (fun b (y : Nat) => updateCell b (x : Int) (y : Int)) a)
    cb

/-- `Life::Update` (its unused `t`, `dt` parameters dropped): a no-op in
seed mode, otherwise runs the double loop and switches buffers. -/
def Life.Update (l : Life) : Life :=
  if l.seed_mode then l
  else { l with board := (updateLoop l.board).SwitchBuffer }

/-- `Life::ToggleSeed`. -/
def Life.ToggleSeed (l : Life) : Life :=
  { l with seed_mode := !l.seed_mode }

/-- `Life::SeedCell`: a no-op when seed mode is inactive; otherwise maps
pixel coordinates to the cell via C integer division by `CELL_SZ`, reads
the cell, negates it, and performs copy / single write / switch. -/
def Life.SeedCell (l : Life) (x y : Int) : Life :=
  if !l.seed_mode then l
  else
    let x_ := x.tdiv CELL_SZ
    let y_ := y.tdiv CELL_SZ
    let c := l.board.CellAt x_ y_
    let c2 : Int := if c > 0 then 0 else 1
    { l with board := ((l.board.CopyBuffer).ChangeCellTo x_ y_ c2).SwitchBuffer }

/-- Cell offset in the bit-packed buffer after toroidal adjustment. -/
def offN (x y : Int) : Nat := (adjust x EDGE_SZ * EDGE_SZ + adjust y EDGE_SZ).toNat

/-- Bit `off % 8` of byte `off / 8` of the buffer: the stored state of
the cell with packed offset `off`. -/
def bitOf (buf off : Nat) : Bool := (getByte buf (off / 8)).testBit (off % 8)

/-- Pending (uncommitted) value of a cell in the back buffer; the
committed-read procedure applied to `backbuf`. -/
def CellBoard.nextCellAt (cb : CellBoard) (x y : Int) : Int :=
  readCell cb.backbuf x y

/-- A sequence of `ChangeCellTo` writes `(x, y, value)`, applied in order:
the general shape of the writes made between two commits. -/
def applyWrites (cb : CellBoard) (ws : List (Int × Int × Int)) : CellBoard :=
  ws.foldl (fun c w => c.ChangeCellTo w.1 w.2.1 w.2.2) cb

/-- The latest write in `ws` that lands on packed offset `j`, if any. -/
def lastHit (ws : List (Int × Int × Int)) (j : Nat) : Option (Int × Int × Int) :=
  ws.reverse.find? fun w => offN w.1 w.2.1 == j

/-- The Game-of-Life transition fires for cell `(x, y)` of buffer `buf`:
exactly the condition under which the `Update` loop body writes a 1. -/
def fires (buf : Nat) (x y : Int) : Prop :=
  (readCell buf x y = 1 ∧ (neighborCount buf x y = 2 ∨ neighborCount buf x y = 3)) ∨
  (readCell buf x y = 0 ∧ neighborCount buf x y = 3)

instance (buf : Nat) (x y : Int) : Decidable (fires buf x y) := by
  unfold fires; infer_instance

/-! ### Byte-level lemmas about the little-endian buffer encoding -/

lemma getByte_lt (b i : Nat) : getByte b i < 256 :=
  Nat.mod_lt _ (by norm_num)

lemma getByte_zero (i : Nat) : getByte 0 i = 0 := by
  simp [getByte]

lemma getByte_eq_mod_div (b i : Nat) : getByte b i = b % 256 ^ (i + 1) / 256 ^ i := by
  unfold getByte
  rw [pow_succ, Nat.mod_mul_right_div_self]

lemma getByte_setByte_self (b i v : Nat) (hv : v < 256) :
    getByte (setByte b i v) i = v := by
  unfold getByte setByte
  have hp : 0 < (256 : Nat) ^ i := Nat.pos_pow_of_pos _ (by norm_num)
  have h1 : b % 256 ^ i + v * 256 ^ i + b / 256 ^ (i + 1) * 256 ^ (i + 1)
      = b % 256 ^ i + (v + b / 256 ^ (i + 1) * 256) * 256 ^ i := by
    rw [pow_succ]
    ring
  rw [h1, Nat.add_mul_div_right _ _ hp, Nat.div_eq_of_lt (Nat.mod_lt _ hp)]
  rw [Nat.zero_add, Nat.add_mul_mod_self_right, Nat.mod_eq_of_lt hv]

lemma getByte_setByte_lt (b i v j : Nat) (hj : j < i) :
    getByte (setByte b i v) j = getByte b j := by
  rw [getByte_eq_mod_div, getByte_eq_mod_div]
  congr 1
  unfold setByte
  have hd : (256 : Nat) ^ (j + 1) ∣ 256 ^ i := pow_dvd_pow _ (by omega)
  have hd1 : (256 : Nat) ^ (j + 1) ∣ v * 256 ^ i := Dvd.dvd.mul_left hd v
  have hd2 : (256 : Nat) ^ (j + 1) ∣ b / 256 ^ (i + 1) * 256 ^ (i + 1) :=
    Dvd.dvd.mul_left (pow_dvd_pow _ (by omega)) _
  obtain ⟨c, hc⟩ := dvd_add hd1 hd2
  have hsum : b % 256 ^ i + v * 256 ^ i + b / 256 ^ (i + 1) * 256 ^ (i + 1)
      = b % 256 ^ i + 256 ^ (j + 1) * c := by rw [← hc]; ring
  rw [hsum, Nat.add_mul_mod_self_left, Nat.mod_mod_of_dvd b hd]

lemma getByte_setByte_gt (b i v j : Nat) (hv : v < 256) (hj : i < j) :
    getByte (setByte b i v) j = getByte b j := by
  have key : setByte b i v / 256 ^ (i + 1) = b / 256 ^ (i + 1) := by
    unfold setByte
    have hp : 0 < (256 : Nat) ^ (i + 1) := Nat.pos_pow_of_pos _ (by norm_num)
    have hlow : b % 256 ^ i + v * 256 ^ i < 256 ^ (i + 1) := by
      have h1 : b % 256 ^ i < 256 ^ i := Nat.mod_lt _ (Nat.pos_pow_of_pos _ (by norm_num))
      have h2 : v * 256 ^ i ≤ 255 * 256 ^ i := Nat.mul_le_mul_right _ (by omega)
      have h3 : (256 : Nat) ^ (i + 1) = 256 * 256 ^ i := by rw [pow_succ]; ring
      omega
    rw [Nat.add_mul_div_right _ _ hp, Nat.div_eq_of_lt hlow, Nat.zero_add]
  have hsplit : (256 : Nat) ^ j = 256 ^ (i + 1) * 256 ^ (j - (i + 1)) := by
    rw [← pow_add]
    congr 1
    omega
  unfold getByte
  rw [hsplit, ← Nat.div_div_eq_div_mul, ← Nat.div_div_eq_div_mul, key]

lemma getByte_setByte (b i v j : Nat) (hv : v < 256) :
    getByte (setByte b i v) j = if j = i then v else getByte b j := by
  rcases lt_trichotomy j i with h | h | h
  · rw [if_neg (by omega), getByte_setByte_lt _ _ _ _ h]
  · rw [if_pos h, h, getByte_setByte_self _ _ _ hv]
  · rw [if_neg (by omega), getByte_setByte_gt _ _ _ _ hv h]

/-! ### Truncating mod versus floor mod -/

lemma tmod_of_neg (a : Int) (h : a < 0) : a.tmod 64 = -((-a) % 64) := by
  obtain ⟨n, rfl | rfl⟩ := a.eq_nat_or_neg
  · omega
  · match n with
    | 0 => omega
    | (m + 1) =>
      have h1 : (-(↑(m + 1) : Int)).tmod 64 = -(((m + 1 : Nat) : Int) % 64) := rfl
      rw [h1]
      omega

lemma adjust_eq_emod (v : Int) : adjust v 64 = v % 64 := by
  unfold adjust
  dsimp only
  rcases lt_or_le v 0 with h | h
  · rw [tmod_of_neg v h]
    have h1 : 0 ≤ (-v) % 64 := Int.emod_nonneg _ (by norm_num)
    have h2 : (-v) % 64 < 64 := Int.emod_lt_of_pos _ (by norm_num)
    split <;> omega
  · rw [Int.tmod_eq_emod h (by norm_num)]
    have h1 : 0 ≤ v % 64 := Int.emod_nonneg _ (by norm_num)
    split <;> omega

lemma adjust_nonneg (v : Int) : 0 ≤ adjust v 64 := by
  rw [adjust_eq_emod]; omega

lemma adjust_lt (v : Int) : adjust v 64 < 64 := by
  rw [adjust_eq_emod]; omega

lemma adjust_idem (v : Int) : adjust (adjust v 64) 64 = adjust v 64 := by
  rw [adjust_eq_emod, adjust_eq_emod]; omega

/-! ### Packed offsets -/

lemma offN_def (x y : Int) : offN x y = (adjust x 64 * 64 + adjust y 64).toNat := by
  rfl

lemma offN_lt (x y : Int) : offN x y < 4096 := by
  have h1 := adjust_nonneg x
  have h2 := adjust_lt x
  have h3 := adjust_nonneg y
  have h4 := adjust_lt y
  rw [offN_def]
  omega

lemma offN_eq_iff (x y x' y' : Int) :
    offN x y = offN x' y' ↔
      (adjust x 64 = adjust x' 64 ∧ adjust y 64 = adjust y' 64) := by
  have h1 := adjust_nonneg x
  have h2 := adjust_lt x
  have h3 := adjust_nonneg y
  have h4 := adjust_lt y
  have h5 := adjust_nonneg x'
  have h6 := adjust_lt x'
  have h7 := adjust_nonneg y'
  have h8 := adjust_lt y'
  rw [offN_def, offN_def]
  omega

/-! ### Cell reads and writes as single-bit operations -/

lemma land_shift_pos_iff (B k : Nat) : 0 < B &&& (1 <<< k) ↔ B.testBit k = true := by
  rw [Nat.shiftLeft_eq, one_mul, Nat.and_two_pow]
  cases h : B.testBit k <;> simp [h]

lemma readCell_eq (buf : Nat) (x y : Int) :
    readCell buf x y = if bitOf buf (offN x y) then 1 else 0 := by
  unfold readCell bitOf EDGE_SZ
  dsimp only
  rw [offN_def]
  exact if_congr (land_shift_pos_iff _ _) rfl rfl

lemma readCell_cases (buf : Nat) (x y : Int) :
    readCell buf x y = 0 ∨ readCell buf x y = 1 := by
  rw [readCell_eq]
  split <;> simp

lemma bitOf_zero (j : Nat) : bitOf 0 j = false := by
  simp [bitOf, getByte_zero, Nat.zero_testBit]

lemma readCell_zero (x y : Int) : readCell 0 x y = 0 := by
  rw [readCell_eq, bitOf_zero]
  rfl

lemma mask_testBit (k r : Nat) (hk : k < 8) (hr : r < 8) :
    (255 - 2 ^ k).testBit r = !(decide (r = k)) := by
  interval_cases k <;> interval_cases r <;> decide

lemma bitOf_writeCell (buf : Nat) (x y : Int) (v : Int) (j : Nat) :
    bitOf (writeCell buf x y v) j =
      if j = offN x y then decide (v ≠ 0) else bitOf buf j := by
  have hoffd : (adjust x 64 * 64 + adjust y 64).toNat = offN x y := (offN_def x y).symm
  unfold writeCell EDGE_SZ
  dsimp only
  rw [hoffd]
  have hbit : offN x y % 8 < 8 := Nat.mod_lt _ (by norm_num)
  have hB : getByte buf (offN x y / 8) < 256 := getByte_lt _ _
  rw [Nat.shiftLeft_eq, one_mul]
  by_cases hv : v = 0
  · subst hv
    rw [if_pos rfl]
    have hdec0 : decide ((0 : Int) ≠ 0) = false := by decide
    rw [hdec0]
    have hmask : getByte buf (offN x y / 8) &&& (255 - 2 ^ (offN x y % 8)) < 256 :=
      lt_of_le_of_lt Nat.and_le_left hB
    unfold bitOf
    rw [getByte_setByte _ _ _ _ hmask]
    by_cases hidx : j / 8 = offN x y / 8
    · rw [if_pos hidx, hidx, Nat.testBit_land,
        mask_testBit _ _ hbit (Nat.mod_lt _ (by norm_num))]
      by_cases hj : j = offN x y
      · have hr : j % 8 = offN x y % 8 := by rw [hj]
        rw [if_pos hj]
        simp [hr]
      · have hr : j % 8 ≠ offN x y % 8 := by omega
        rw [if_neg hj]
        simp [hr, hidx]
    · rw [if_neg hidx, if_neg (by omega)]
  · rw [if_neg hv]
    have hdec1 : decide (v ≠ 0) = true := by simp [hv]
    rw [hdec1]
    have hor : getByte buf (offN x y / 8) ||| 2 ^ (offN x y % 8) < 256 := by
      have h2 : (2 : Nat) ^ (offN x y % 8) < 2 ^ 8 := Nat.pow_lt_pow_right (by norm_num) hbit
      have h256 : (256 : Nat) = 2 ^ 8 := by norm_num
      rw [h256]
      exact Nat.or_lt_two_pow (by rw [← h256]; exact hB) h2
    unfold bitOf
    rw [getByte_setByte _ _ _ _ hor]
    by_cases hidx : j / 8 = offN x y / 8
    · rw [if_pos hidx, hidx, Nat.testBit_lor, Nat.testBit_two_pow]
      by_cases hj : j = offN x y
      · have hr : offN x y % 8 = j % 8 := by rw [hj]
        rw [if_pos hj]
        simp [hr]
      · have hr : offN x y % 8 ≠ j % 8 := by omega
        rw [if_neg hj]
        simp [hr, hidx]
    · rw [if_neg hidx, if_neg (by omega)]

/-! ### Congruence of reads under toroidal adjustment -/

lemma readCell_congr (buf : Nat) {x y x' y' : Int}
    (hx : adjust x 64 = adjust x' 64) (hy : adjust y 64 = adjust y' 64) :
    readCell buf x y = readCell buf x' y' := by
  unfold readCell EDGE_SZ
  rw [hx, hy]

lemma adjust_congr_add {a b : Int} (c : Int) (h : adjust a 64 = adjust b 64) :
    adjust (a + c) 64 = adjust (b + c) 64 := by
  rw [adjust_eq_emod, adjust_eq_emod] at *
  omega

lemma adjust_congr_sub {a b : Int} (c : Int) (h : adjust a 64 = adjust b 64) :
    adjust (a - c) 64 = adjust (b - c) 64 := by
  rw [adjust_eq_emod, adjust_eq_emod] at *
  omega

lemma neighborCount_congr (buf : Nat) {x y x' y' : Int}
    (hx : adjust x 64 = adjust x' 64) (hy : adjust y 64 = adjust y' 64) :
    neighborCount buf x y = neighborCount buf x' y' := by
  unfold neighborCount
  rw [readCell_congr buf (adjust_congr_sub 1 hx) (adjust_congr_sub 1 hy),
    readCell_congr buf hx (adjust_congr_sub 1 hy),
    readCell_congr buf (adjust_congr_add 1 hx) (adjust_congr_sub 1 hy),
    readCell_congr buf (adjust_congr_sub 1 hx) hy,
    readCell_congr buf (adjust_congr_add 1 hx) hy,
    readCell_congr buf (adjust_congr_sub 1 hx) (adjust_congr_add 1 hy),
    readCell_congr buf hx (adjust_congr_add 1 hy),
    readCell_congr buf (adjust_congr_add 1 hx) (adjust_congr_add 1 hy)]

lemma fires_congr (buf : Nat) {x y x' y' : Int}
    (hx : adjust x 64 = adjust x' 64) (hy : adjust y 64 = adjust y' 64) :
    fires buf x y ↔ fires buf x' y' := by
  unfold fires
  rw [readCell_congr buf hx hy, neighborCount_congr buf hx hy]

/-! ### Characterization of the update loop -/

lemma CellBoard.board_mk (a b : Nat) : (⟨a, b⟩ : CellBoard).board = a := rfl

lemma CellBoard.backbuf_mk (a b : Nat) : (⟨a, b⟩ : CellBoard).backbuf = b := rfl

lemma updateCell_board (cb : CellBoard) (x y : Int) :
    (updateCell cb x y).board = cb.board := by
  unfold updateCell CellBoard.ChangeCellTo
  dsimp only
  split_ifs <;> rfl

lemma updateCell_backbuf (cb : CellBoard) (x y : Int) :
    (updateCell cb x y).backbuf =
      if fires cb.board x y then writeCell cb.backbuf x y 1 else cb.backbuf := by
  unfold updateCell CellBoard.ChangeCellTo CellBoard.CellAt fires
  dsimp only
  split_ifs with h1 h2 h3 <;> first | rfl | tauto

lemma foldl_inner_board (x : Nat) (ys : List Nat) (s : CellBoard) :
    (ys.foldl (fun b (y : Nat) => updateCell b (x : Int) (y : Int)) s).board = s.board := by
  induction ys generalizing s with
  | nil => rfl
  | cons y ys ih => rw [List.foldl_cons, ih, updateCell_board]

lemma foldl_inner_bit (x : Nat) (ys : List Nat) (s : CellBoard) (j : Nat) :
    bitOf (ys.foldl (fun b (y : Nat) => updateCell b (x : Int) (y : Int)) s).backbuf j = true ↔
      (bitOf s.backbuf j = true ∨
        ∃ y ∈ ys, j = offN (x : Int) (y : Int) ∧ fires s.board (x : Int) (y : Int)) := by
  induction ys generalizing s with
  | nil => simp
  | cons y ys ih =>
    rw [List.foldl_cons, ih]
    rw [updateCell_board]
    have hb : bitOf (updateCell s (x : Int) (y : Int)).backbuf j = true ↔
        (bitOf s.backbuf j = true ∨
          (j = offN (x : Int) (y : Int) ∧ fires s.board (x : Int) (y : Int))) := by
      rw [updateCell_backbuf]
      split_ifs with hf
      · rw [bitOf_writeCell]
        split_ifs with hj
        · simp [hf, hj]
        · tauto
      · tauto
    rw [hb]
    simp only [List.mem_cons]
    constructor
    · rintro ((h | h) | ⟨y', hy', h⟩)
      · exact Or.inl h
      · exact Or.inr ⟨y, Or.inl rfl, h⟩
      · exact Or.inr ⟨y', Or.inr hy', h⟩
    · rintro (h | ⟨y', (rfl | hy'), h⟩)
      · exact Or.inl (Or.inl h)
      · exact Or.inl (Or.inr h)
      · exact Or.inr ⟨y', hy', h⟩

lemma foldl_outer_board (xs : List Nat) (s : CellBoard) :
    (xs.foldl
      (fun a (x : Nat) =>
        (List.range 64).foldl (fun b (y : Nat) => updateCell b (x : Int) (y : Int)) a)
      s).board = s.board := by
  induction xs generalizing s with
  | nil => rfl
  | cons x xs ih => rw [List.foldl_cons, ih, foldl_inner_board]

lemma foldl_outer_bit (xs : List Nat) (s : CellBoard) (j : Nat) :
    bitOf (xs.foldl
      (fun a (x : Nat) =>
        (List.range 64).foldl (fun b (y : Nat) => updateCell b (x : Int) (y : Int)) a)
      s).backbuf j = true ↔
      (bitOf s.backbuf j = true ∨
        ∃ x ∈ xs, ∃ y ∈ List.range 64,
          j = offN (x : Int) (y : Int) ∧ fires s.board (x : Int) (y : Int)) := by
  induction xs generalizing s with
  | nil => simp
  | cons x xs ih =>
    rw [List.foldl_cons, ih]
    rw [foldl_inner_board]
    rw [foldl_inner_bit]
    simp only [List.mem_cons]
    constructor
    · rintro ((h | ⟨y, hy, h⟩) | ⟨x', hx', h⟩)
      · exact Or.inl h
      · exact Or.inr ⟨x, Or.inl rfl, y, hy, h⟩
      · exact Or.inr ⟨x', Or.inr hx', h⟩
    · rintro (h | ⟨x', (rfl | hx'), h⟩)
      · exact Or.inl (Or.inl h)
      · exact Or.inl (Or.inr h)
      · exact Or.inr ⟨x', hx', h⟩

lemma updateLoop_board (cb : CellBoard) : (updateLoop cb).board = cb.board :=
  foldl_outer_board _ _

lemma updateLoop_bit (cb : CellBoard) (j : Nat) :
    bitOf (updateLoop cb).backbuf j = true ↔
      (bitOf cb.backbuf j = true ∨
        ∃ x ∈ List.range 64, ∃ y ∈ List.range 64,
          j = offN (x : Int) (y : Int) ∧ fires cb.board (x : Int) (y : Int)) :=
  foldl_outer_bit _ _ _

lemma exists_grid_iff (b : Nat) (x y : Int) :
    (∃ x' ∈ List.range 64, ∃ y' ∈ List.range 64,
        offN x y = offN (x' : Int) (y' : Int) ∧ fires b (x' : Int) (y' : Int)) ↔
      fires b x y := by
  constructor
  · rintro ⟨x', _, y', _, heq, hf⟩
    rw [offN_eq_iff] at heq
    exact (fires_congr b heq.1 heq.2).mpr hf
  · intro hf
    have hx1 := adjust_nonneg x
    have hx2 := adjust_lt x
    have hy1 := adjust_nonneg y
    have hy2 := adjust_lt y
    refine ⟨(adjust x 64).toNat, ?_, (adjust y 64).toNat, ?_, ?_, ?_⟩
    · rw [List.mem_range]; omega
    · rw [List.mem_range]; omega
    · rw [offN_eq_iff]
      constructor
      · rw [show (((adjust x 64).toNat : Nat) : Int) = adjust x 64 by omega, adjust_idem]
      · rw [show (((adjust y 64).toNat : Nat) : Int) = adjust y 64 by omega, adjust_idem]
    · refine (fires_congr b ?_ ?_).mp hf
      · rw [show (((adjust x 64).toNat : Nat) : Int) = adjust x 64 by omega, adjust_idem]
      · rw [show (((adjust y 64).toNat : Nat) : Int) = adjust y 64 by omega, adjust_idem]

lemma Update_board_of_not_seed (l : Life) (h : l.seed_mode = false) :
    (l.Update).board = ⟨(updateLoop l.board).backbuf, 0⟩ := by
  unfold Life.Update
  rw [h]
  rfl

lemma Update_cellAt_iff (l : Life) (h : l.seed_mode = false) (x y : Int) :
    (l.Update).board.CellAt x y = 1 ↔
      (bitOf l.board.backbuf (offN x y) = true ∨ fires l.board.board x y) := by
  rw [Update_board_of_not_seed l h]
  rw [CellBoard.CellAt]
  rw [CellBoard.board_mk]
  rw [readCell_eq]
  constructor
  · intro hone
    have hcond : bitOf (updateLoop l.board).backbuf (offN x y) = true := by
      by_contra hc
      rw [if_neg hc] at hone
      exact absurd hone (by norm_num)
    rw [updateLoop_bit] at hcond
    rcases hcond with hb | hex
    · exact Or.inl hb
    · exact Or.inr ((exists_grid_iff l.board.board x y).mp hex)
  · intro hcond
    have : bitOf (updateLoop l.board).backbuf (offN x y) = true := by
      rw [updateLoop_bit]
      rcases hcond with hb | hf
      · exact Or.inl hb
      · exact Or.inr ((exists_grid_iff l.board.board x y).mpr hf)
    rw [if_pos this]

lemma Update_cellAt_eq (l : Life) (h : l.seed_mode = false) (x y : Int) :
    (l.Update).board.CellAt x y =
      if (bitOf l.board.backbuf (offN x y) = true ∨ fires l.board.board x y)
      then 1 else 0 := by
  have hiff := Update_cellAt_iff l h x y
  have hcases : (l.Update).board.CellAt x y = 0 ∨ (l.Update).board.CellAt x y = 1 :=
    readCell_cases _ x y
  split_ifs with hc
  · exact hiff.mpr hc
  · rcases hcases with h0 | h1
    · exact h0
    · exact absurd (hiff.mp h1) hc

/-! ### The first update from a zero committed board commits the back buffer -/

lemma neighborCount_zero (x y : Int) : neighborCount 0 x y = 0 := by
  simp [neighborCount, readCell_zero]

lemma updateCell_id_of_board_zero (cb : CellBoard) (h : cb.board = 0) (x y : Int) :
    updateCell cb x y = cb := by
  unfold updateCell CellBoard.CellAt
  dsimp only
  rw [h, readCell_zero, neighborCount_zero]
  norm_num

lemma foldl_inner_id (x : Nat) (ys : List Nat) (s : CellBoard) (h : s.board = 0) :
    ys.foldl (fun b (y : Nat) => updateCell b (x : Int) (y : Int)) s = s := by
  induction ys with
  | nil => rfl
  | cons y ys ih => rw [List.foldl_cons, updateCell_id_of_board_zero s h]; exact ih

lemma updateLoop_id_of_board_zero (cb : CellBoard) (h : cb.board = 0) : updateLoop cb = cb := by
  have H : ∀ xs : List Nat,
      xs.foldl
        (fun a (x : Nat) =>
          (List.range 64).foldl (fun b (y : Nat) => updateCell b (x : Int) (y : Int)) a)
        cb = cb := by
    intro xs
    induction xs with
    | nil => rfl
    | cons x xs ih => rw [List.foldl_cons, foldl_inner_id x _ cb h]; exact ih
  exact H _

lemma update_init : Life.init.Update = ⟨false, ⟨Life.init.board.backbuf, 0⟩⟩ := by
  have hseed : Life.init.seed_mode = false := rfl
  have hboard : Life.init.board.board = 0 := rfl
  unfold Life.Update
  rw [hseed, if_neg (by simp)]
  rw [updateLoop_id_of_board_zero Life.init.board hboard]
  rfl

/-! ### The effect of a seed-mode toggle -/

lemma SeedCell_eq (l : Life) (h : l.seed_mode = true) (x y : Int) :
    l.SeedCell x y =
      ⟨l.seed_mode,
        ⟨writeCell l.board.board (x.tdiv CELL_SZ) (y.tdiv CELL_SZ)
          (if l.board.CellAt (x.tdiv CELL_SZ) (y.tdiv CELL_SZ) > 0 then 0 else 1), 0⟩⟩ := by
  unfold Life.SeedCell
  rw [h, if_neg (by simp)]
  rfl

/-! ### Sequences of back-buffer writes -/

lemma ChangeCellTo_board (cb : CellBoard) (x y v : Int) :
    (cb.ChangeCellTo x y v).board = cb.board := rfl

lemma ChangeCellTo_backbuf (cb : CellBoard) (x y v : Int) :
    (cb.ChangeCellTo x y v).backbuf = writeCell cb.backbuf x y v := rfl

lemma lastHit_nil (j : Nat) : lastHit [] j = none := rfl

lemma lastHit_cons (w : Int × Int × Int) (ws : List (Int × Int × Int)) (j : Nat) :
    lastHit (w :: ws) j =
      (lastHit ws j).or (if offN w.1 w.2.1 = j then some w else none) := by
  unfold lastHit
  rw [List.reverse_cons, List.find?_append]
  congr 1
  by_cases hw : offN w.1 w.2.1 = j
  · rw [if_pos hw]
    simp [List.find?, hw]
  · rw [if_neg hw]
    have hb : (offN w.1 w.2.1 == j) = false := by simp [hw]
    simp [List.find?, hb]

lemma applyWrites_cons (cb : CellBoard) (w : Int × Int × Int) (ws : List (Int × Int × Int)) :
    applyWrites cb (w :: ws) = applyWrites (cb.ChangeCellTo w.1 w.2.1 w.2.2) ws := rfl

lemma applyWrites_board (cb : CellBoard) (ws : List (Int × Int × Int)) :
    (applyWrites cb ws).board = cb.board := by
  induction ws generalizing cb with
  | nil => rfl
  | cons w ws ih => rw [applyWrites_cons, ih, ChangeCellTo_board]

lemma applyWrites_bit (cb : CellBoard) (ws : List (Int × Int × Int)) (j : Nat) :
    bitOf (applyWrites cb ws).backbuf j =
      match lastHit ws j with
      | some w => decide (w.2.2 ≠ 0)
      | none => bitOf cb.backbuf j := by
  induction ws generalizing cb with
  | nil => rfl
  | cons w ws ih =>
    rw [applyWrites_cons, ih, lastHit_cons]
    cases hlh : lastHit ws j with
    | some w' => rfl
    | none =>
      rw [ChangeCellTo_backbuf, bitOf_writeCell]
      simp only [Option.none_or]
      by_cases hw : offN w.1 w.2.1 = j
      · rw [if_pos hw.symm, if_pos hw]
      · rw [if_neg (fun hh => hw hh.symm), if_neg hw]

lemma readCell_writeCell (base : Nat) (x y v x' y' : Int) :
    readCell (writeCell base x y v) x' y' =
      if offN x' y' = offN x y then (if v = 0 then 0 else 1) else readCell base x' y' := by
  rw [readCell_eq, bitOf_writeCell, readCell_eq]
  by_cases he : offN x' y' = offN x y
  · rw [if_pos he, if_pos he]
    by_cases hv : v = 0
    · simp [hv]
    · simp [hv]
  · rw [if_neg he, if_neg he]

lemma CellAt_cases (cb : CellBoard) (x y : Int) :
    cb.CellAt x y = 0 ∨ cb.CellAt x y = 1 :=
  readCell_cases cb.board x y

lemma CellAt_def (cb : CellBoard) (x y : Int) : cb.CellAt x y = readCell cb.board x y := rfl

lemma CellAt_congr_off (cb : CellBoard) {x y x' y' : Int} (he : offN x y = offN x' y') :
    cb.CellAt x y = cb.CellAt x' y' := by
  rw [CellAt_def, CellAt_def, readCell_eq, readCell_eq, he]

/-! ### The claims -/

/-- Claim C1: for a simulation not in seed mode whose back buffer is all
zero, one `Update` call commits exactly one Game-of-Life generation
computed from the frozen prior committed board: afterwards a cell reads
live (1) iff it was live with 2 or 3 live neighbors among its 8 toroidal
neighbors of the prior board, or dead with exactly 3; reads are two-valued,
so every other combination reads dead (0). -/
theorem claim_C1 (l : Life) (h : l.seed_mode = false) (hz : l.board.backbuf = 0)
    (x y : Int) :
    ((l.Update).board.CellAt x y = 1 ↔
      ((l.board.CellAt x y = 1 ∧
          (neighborCount l.board.board x y = 2 ∨ neighborCount l.board.board x y = 3)) ∨
        (l.board.CellAt x y = 0 ∧ neighborCount l.board.board x y = 3))) ∧
    ((l.Update).board.CellAt x y = 1 ∨ (l.Update).board.CellAt x y = 0) := by
  constructor
  · rw [Update_cellAt_iff l h x y, hz, bitOf_zero]
    simp only [Bool.false_eq_true, false_or]
    exact Iff.rfl
  · exact Or.symm (CellAt_cases _ x y)

/-- Claim C1 witness: the theorem applied to the empty running board at
cell (0, 0). -/
theorem claim_C1_witness :
    (((⟨false, ⟨0, 0⟩⟩ : Life).Update).board.CellAt 0 0 = 1 ↔
      (((⟨false, ⟨0, 0⟩⟩ : Life).board.CellAt 0 0 = 1 ∧
          (neighborCount (⟨false, ⟨0, 0⟩⟩ : Life).board.board 0 0 = 2 ∨
            neighborCount (⟨false, ⟨0, 0⟩⟩ : Life).board.board 0 0 = 3)) ∨
        ((⟨false, ⟨0, 0⟩⟩ : Life).board.CellAt 0 0 = 0 ∧
          neighborCount (⟨false, ⟨0, 0⟩⟩ : Life).board.board 0 0 = 3))) ∧
    (((⟨false, ⟨0, 0⟩⟩ : Life).Update).board.CellAt 0 0 = 1 ∨
      ((⟨false, ⟨0, 0⟩⟩ : Life).Update).board.CellAt 0 0 = 0) :=
  claim_C1 ⟨false, ⟨0, 0⟩⟩ rfl rfl 0 0

/-- Claim C2 counterexample: after exactly one `Update` from the freshly
constructed simulation, cell (31, 32) reads dead although the claim
asserts it is live, and seed cell (32, 31) reads live although the claim
asserts it is dead: the constructor left the seed uncommitted, so the
first `Update` (whose committed board is still all dead) merely commits
the seed pattern. -/
theorem claim_C2_cex :
    (Life.init.Update).board.CellAt 31 32 = 0 ∧
    (Life.init.Update).board.CellAt 32 31 = 1 := by
  rw [update_init]
  constructor <;> decide

/-- Claim C2 (amended): the blinker rotation appears after exactly two
`Update` calls from the fresh simulation (the first call only commits the
constructor's seed): cells (31, 32), (32, 32), (33, 32) are then live and
(32, 31), (32, 33) are dead. -/
theorem claim_C2_amended :
    ((Life.init.Update).Update).board.CellAt 31 32 = 1 ∧
    ((Life.init.Update).Update).board.CellAt 32 32 = 1 ∧
    ((Life.init.Update).Update).board.CellAt 33 32 = 1 ∧
    ((Life.init.Update).Update).board.CellAt 32 31 = 0 ∧
    ((Life.init.Update).Update).board.CellAt 32 33 = 0 := by
  rw [update_init]
  refine ⟨?_, ?_, ?_, ?_, ?_⟩ <;>
    · rw [Update_cellAt_eq ⟨false, ⟨Life.init.board.backbuf, 0⟩⟩ rfl]
      decide

/-- Claim C3 counterexample: immediately after construction the back
buffer is not all zero — the constructor wrote the three seed cells into
it without committing. -/
theorem claim_C3_cex : Life.init.board.backbuf ≠ 0 := by
  decide

/-- Claim C3 (amended): after every commit (`SwitchBuffer`) the back
buffer is entirely cleared — in particular after every non-seed-mode
`Update` and after every effective `SeedCell` — but after construction it
is not cleared: it holds the three uncommitted seed cells. -/
theorem claim_C3_amended :
    (∀ cb : CellBoard, (cb.SwitchBuffer).backbuf = 0) ∧
    (∀ l : Life, l.seed_mode = false → (l.Update).board.backbuf = 0) ∧
    (∀ (l : Life) (x y : Int), l.seed_mode = true → (l.SeedCell x y).board.backbuf = 0) ∧
    Life.init.board.backbuf ≠ 0 := by
  refine ⟨fun cb => rfl, ?_, ?_, by decide⟩
  · intro l h
    rw [Update_board_of_not_seed l h, CellBoard.backbuf_mk]
  · intro l x y h
    rw [SeedCell_eq l h x y, CellBoard.backbuf_mk]

/-- Claim C3 witness: the amended theorem applied to a concrete running
state and a concrete seeding state. -/
theorem claim_C3_witness :
    ((⟨false, ⟨5, 7⟩⟩ : Life).Update).board.backbuf = 0 ∧
    ((⟨true, ⟨5, 7⟩⟩ : Life).SeedCell 2 3).board.backbuf = 0 :=
  ⟨claim_C3_amended.2.1 ⟨false, ⟨5, 7⟩⟩ rfl, claim_C3_amended.2.2.1 ⟨true, ⟨5, 7⟩⟩ 2 3 rfl⟩

/-- Claim C4: a committed single write reads back its value; committing a
write sequence made from a cleared back buffer leaves every unwritten cell
dead, the last write to a cell winning; and the same sequence preceded by
`CopyBuffer` leaves every unwritten cell at its prior committed value. -/
theorem claim_C4 :
    (∀ (cb : CellBoard) (x y v : Int), v = 0 ∨ v = 1 →
      ((cb.ChangeCellTo x y v).SwitchBuffer).CellAt x y = v) ∧
    (∀ (b0 : Nat) (ws : List (Int × Int × Int)) (x y : Int),
      ((applyWrites ⟨b0, 0⟩ ws).SwitchBuffer).CellAt x y =
        match lastHit ws (offN x y) with
        | some w => if w.2.2 = 0 then 0 else 1
        | none => 0) ∧
    (∀ (cb : CellBoard) (ws : List (Int × Int × Int)) (x y : Int),
      ((applyWrites cb.CopyBuffer ws).SwitchBuffer).CellAt x y =
        match lastHit ws (offN x y) with
        | some w => if w.2.2 = 0 then 0 else 1
        | none => cb.CellAt x y) := by
  refine ⟨?_, ?_, ?_⟩
  · intro cb x y v hv
    show readCell (writeCell cb.backbuf x y v) x y = v
    rw [readCell_writeCell, if_pos rfl]
    rcases hv with rfl | rfl
    · rw [if_pos rfl]
    · norm_num
  · intro b0 ws x y
    show readCell (applyWrites ⟨b0, 0⟩ ws).backbuf x y = _
    rw [readCell_eq, applyWrites_bit]
    cases hlh : lastHit ws (offN x y) with
    | none =>
      rw [CellBoard.backbuf_mk, bitOf_zero]
      rfl
    | some w =>
      by_cases hw : w.2.2 = 0
      · simp [hw]
      · simp [hw]
  · intro cb ws x y
    show readCell (applyWrites cb.CopyBuffer ws).backbuf x y = _
    rw [readCell_eq, applyWrites_bit]
    cases hlh : lastHit ws (offN x y) with
    | none =>
      show (if bitOf (cb.CopyBuffer).backbuf (offN x y) = true then 1 else 0) = _
      rw [show (cb.CopyBuffer).backbuf = cb.board from rfl, ← readCell_eq]
      rfl
    | some w =>
      by_cases hw : w.2.2 = 0
      · simp [hw]
      · simp [hw]

/-- Claim C4 witness: writing value 1 at (1, 2) and committing reads back
value 1; committing the one-write sequence from a cleared back buffer
leaves the unwritten cell (3, 4) dead. -/
theorem claim_C4_witness :
    (((⟨0, 0⟩ : CellBoard).ChangeCellTo 1 2 1).SwitchBuffer).CellAt 1 2 = 1 :=
  claim_C4.1 ⟨0, 0⟩ 1 2 1 (Or.inr rfl)

/-- Claim C5: cell reads are invariant under shifting either coordinate by
the grid size 64 in either direction, the adjusted coordinate is the floor
mod (Lean's `%` on integers for a positive modulus), and in particular
coordinate -1 maps to 63 and coordinate 64 maps to 0. -/
theorem claim_C5 (cb : CellBoard) (x y : Int) :
    cb.CellAt (x + 64) y = cb.CellAt x y ∧
    cb.CellAt (x - 64) y = cb.CellAt x y ∧
    cb.CellAt x (y + 64) = cb.CellAt x y ∧
    cb.CellAt x (y - 64) = cb.CellAt x y ∧
    adjust x 64 = x % 64 ∧
    adjust (-1) 64 = 63 ∧
    adjust 64 64 = 0 := by
  refine ⟨?_, ?_, ?_, ?_, adjust_eq_emod x, by decide, by decide⟩
  · exact readCell_congr cb.board (by rw [adjust_eq_emod, adjust_eq_emod]; omega) rfl
  · exact readCell_congr cb.board (by rw [adjust_eq_emod, adjust_eq_emod]; omega) rfl
  · exact readCell_congr cb.board rfl (by rw [adjust_eq_emod, adjust_eq_emod]; omega)
  · exact readCell_congr cb.board rfl (by rw [adjust_eq_emod, adjust_eq_emod]; omega)

/-- Claim C6: a back-buffer write is invisible to committed reads: after
`ChangeCellTo` (with any value), `CellAt` returns its prior value at every
coordinate pair, including the written one. -/
theorem claim_C6 (cb : CellBoard) (x y v x' y' : Int) :
    (cb.ChangeCellTo x y v).CellAt x' y' = cb.CellAt x' y' := rfl

/-- Claim C7: in seed mode any number of `Update` calls leaves the whole
simulation state unchanged, and out of seed mode any `SeedCell` call
leaves the whole simulation state unchanged. -/
theorem claim_C7 (l : Life) :
    (l.seed_mode = true → ∀ n : Nat, Life.Update^[n] l = l) ∧
    (l.seed_mode = false → ∀ x y : Int, l.SeedCell x y = l) := by
  constructor
  · intro h n
    have h1 : l.Update = l := by
      unfold Life.Update
      rw [h, if_pos rfl]
    induction n with
    | zero => rfl
    | succ n ih => rw [Function.iterate_succ_apply, h1, ih]
  · intro h x y
    unfold Life.SeedCell
    rw [h]
    rfl

/-- Claim C7 witness: three updates on a concrete seeding state, and a
seed toggle on a concrete running state, are both no-ops. -/
theorem claim_C7_witness :
    Life.Update^[3] (⟨true, ⟨0, 0⟩⟩ : Life) = ⟨true, ⟨0, 0⟩⟩ ∧
    (⟨false, ⟨0, 0⟩⟩ : Life).SeedCell 5 7 = ⟨false, ⟨0, 0⟩⟩ :=
  ⟨(claim_C7 ⟨true, ⟨0, 0⟩⟩).1 rfl 3, (claim_C7 ⟨false, ⟨0, 0⟩⟩).2 rfl 5 7⟩

/-- Claim C8: in seed mode with a cleared back buffer, two `SeedCell`
calls with the same arguments restore every cell's committed value; one
call sets the targeted cell (pixel coordinates divided by `CELL_SZ`) to
the negation of its prior committed value and preserves every other
cell. -/
theorem claim_C8 (l : Life) (h : l.seed_mode = true) (_hz : l.board.backbuf = 0)
    (x y : Int) :
    (∀ x' y' : Int,
      ((l.SeedCell x y).SeedCell x y).board.CellAt x' y' = l.board.CellAt x' y') ∧
    ((l.SeedCell x y).board.CellAt (x.tdiv CELL_SZ) (y.tdiv CELL_SZ) =
      1 - l.board.CellAt (x.tdiv CELL_SZ) (y.tdiv CELL_SZ)) ∧
    (∀ x' y' : Int, offN x' y' ≠ offN (x.tdiv CELL_SZ) (y.tdiv CELL_SZ) →
      (l.SeedCell x y).board.CellAt x' y' = l.board.CellAt x' y') := by
  have key : ∀ (m : Life), m.seed_mode = true → ∀ x' y' : Int,
      (m.SeedCell x y).board.CellAt x' y' =
        if offN x' y' = offN (x.tdiv CELL_SZ) (y.tdiv CELL_SZ)
        then 1 - m.board.CellAt (x.tdiv CELL_SZ) (y.tdiv CELL_SZ)
        else m.board.CellAt x' y' := by
    intro m hm x' y'
    rw [SeedCell_eq m hm x y]
    show readCell (writeCell m.board.board _ _ _) x' y' = _
    rw [readCell_writeCell, CellAt_def, CellAt_def]
    rcases readCell_cases m.board.board (x.tdiv CELL_SZ) (y.tdiv CELL_SZ) with h0 | h1
    · rw [h0]
      split_ifs <;> omega
    · rw [h1]
      split_ifs <;> omega
  have hsm : (l.SeedCell x y).seed_mode = true := by
    rw [SeedCell_eq l h x y]
    exact h
  refine ⟨?_, ?_, ?_⟩
  · intro x' y'
    rw [key (l.SeedCell x y) hsm x' y']
    by_cases he : offN x' y' = offN (x.tdiv CELL_SZ) (y.tdiv CELL_SZ)
    · rw [if_pos he, key l h (x.tdiv CELL_SZ) (y.tdiv CELL_SZ), if_pos rfl,
        CellAt_congr_off l.board he]
      ring
    · rw [if_neg he, key l h x' y', if_neg he]
  · rw [key l h (x.tdiv CELL_SZ) (y.tdiv CELL_SZ), if_pos rfl]
  · intro x' y' hne
    rw [key l h x' y', if_neg hne]

/-- Claim C8 witness: the theorem applied to a concrete seeding state with
empty board, toggling at pixel (0, 0), observed at the target and at
cell (3, 4). -/
theorem claim_C8_witness :
    (((⟨true, ⟨0, 0⟩⟩ : Life).SeedCell 0 0).SeedCell 0 0).board.CellAt 3 4 =
      (⟨true, ⟨0, 0⟩⟩ : Life).board.CellAt 3 4 ∧
    ((⟨true, ⟨0, 0⟩⟩ : Life).SeedCell 0 0).board.CellAt
        (Int.tdiv 0 CELL_SZ) (Int.tdiv 0 CELL_SZ) =
      1 - (⟨true, ⟨0, 0⟩⟩ : Life).board.CellAt (Int.tdiv 0 CELL_SZ) (Int.tdiv 0 CELL_SZ) :=
  ⟨(claim_C8 ⟨true, ⟨0, 0⟩⟩ rfl rfl 0 0).1 3 4, (claim_C8 ⟨true, ⟨0, 0⟩⟩ rfl rfl 0 0).2.1⟩

/-- Claim C9: immediately after construction every cell reads dead — the
constructor wrote the seed only to the back buffer without committing —
and the three seed cells first become visible after the first
(non-seed-mode) `Update` commits them. -/
theorem claim_C9 :
    (∀ x y : Int, Life.init.board.CellAt x y = 0) ∧
    ((Life.init.Update).board.CellAt 32 31 = 1 ∧
      (Life.init.Update).board.CellAt 32 32 = 1 ∧
      (Life.init.Update).board.CellAt 32 33 = 1) := by
  constructor
  · intro x y
    rw [CellAt_def, show Life.init.board.board = 0 from rfl, readCell_zero]
  · rw [update_init]
    exact ⟨by decide, by decide, by decide⟩

/-- Claim C10: `ChangeCellTo` leaves the committed buffer unchanged and
modifies at most the single back-buffer bit of the adjusted target cell:
the pending value of every cell with a different packed offset — the
seven other cells of the same byte included — is unchanged, the written
bit holds the boolean of the value, and the packing map
`(x, y) -> ((x*64+y)/8, (x*64+y)%8)` is injective on the grid. -/
theorem claim_C10 (cb : CellBoard) (x y v : Int) :
    ((cb.ChangeCellTo x y v).board = cb.board) ∧
    (∀ j : Nat, j ≠ offN x y →
      bitOf (cb.ChangeCellTo x y v).backbuf j = bitOf cb.backbuf j) ∧
    ((cb.ChangeCellTo x y v).nextCellAt x y = if v = 0 then 0 else 1) ∧
    (∀ x' y' : Int, offN x' y' ≠ offN x y →
      (cb.ChangeCellTo x y v).nextCellAt x' y' = cb.nextCellAt x' y') ∧
    (∀ a b a' b' : Nat, a < 64 → b < 64 → a' < 64 → b' < 64 →
      (a * 64 + b) / 8 = (a' * 64 + b') / 8 → (a * 64 + b) % 8 = (a' * 64 + b') % 8 →
      a = a' ∧ b = b') := by
  refine ⟨rfl, ?_, ?_, ?_, ?_⟩
  · intro j hj
    rw [ChangeCellTo_backbuf, bitOf_writeCell, if_neg hj]
  · show readCell (writeCell cb.backbuf x y v) x y = _
    rw [readCell_writeCell, if_pos rfl]
  · intro x' y' hne
    show readCell (writeCell cb.backbuf x y v) x' y' = readCell cb.backbuf x' y'
    rw [readCell_writeCell, if_neg hne]
  · intro a b a' b' ha hb ha' hb' h1 h2
    omega

/-- Claim C10 witness: the theorem applied at a concrete write, observed
at an untouched cell and at two concrete grid pairs. -/
theorem claim_C10_witness :
    ((⟨0, 0⟩ : CellBoard).ChangeCellTo 1 2 1).nextCellAt 3 4 =
      (⟨0, 0⟩ : CellBoard).nextCellAt 3 4 ∧
    bitOf ((⟨0, 0⟩ : CellBoard).ChangeCellTo 1 2 1).backbuf 0 =
      bitOf (⟨0, 0⟩ : CellBoard).backbuf 0 ∧
    ((1 : Nat) = 1 ∧ (2 : Nat) = 2) :=
  ⟨(claim_C10 ⟨0, 0⟩ 1 2 1).2.2.2.1 3 4 (by decide),
    (claim_C10 ⟨0, 0⟩ 1 2 1).2.1 0 (by decide),
    (claim_C10 ⟨0, 0⟩ 1 2 1).2.2.2.2 1 2 1 2 (by decide) (by decide) (by decide) (by decide)
      rfl rfl⟩

end Cgol
